import Mathlib

/-!
Verification of the Cryptogeezas Investment Club ledger core.

This file gives a shallow embedding, in Lean 4, of the ledger and
attribution engine of the repository (`src/app.py`, `src/utils.py`,
`src/app_modern.py`) and settles a list of claims about it.

Modelling conventions:
* Python floats standing for currency amounts and crypto quantities are
  modelled as rationals (`ℚ`).
* Python `datetime` values are modelled by the structure `Date` below:
  `t : ℤ` is the chronological position measured in days (so subtracting a
  `timedelta(days = 7)` is subtraction of `7`), `isoWeek` is
  `datetime.isocalendar()[1]` and `year` is `datetime.year`.  The embedding
  carries these derived attributes instead of re-deriving the Gregorian
  calendar; functions read exactly the attributes the Python code reads.
* Python dicts are modelled as insertion-ordered association lists
  (`List (String × _)`); `d.get(k, v)` is `(dictGet? l k).getD v`, and
  `d[k] = v` either rewrites the entries holding `k` (`dictUpdate`) or
  appends a new one, as in the source.
* The Streamlit pages are single-writer flows: a mutation either runs to
  completion (load, mutate, save) or is blocked by the page's validation,
  leaving the stored state untouched.  A flow is therefore embedded as a
  function from the loaded state to (new state, optional error).
-/

namespace Cryptogeezas

/-- `MEMBERS` from `src/app.py` line 41: the statically configured club
member registry. -/
def MEMBERS : List String := ["Charles", "Ross Parmenter", "Jayden Kenna", "Brad Johnson"]

/-- A Python `datetime`, abstracted to the attributes the source reads:
chronological position `t` (in days, so `timedelta(days=7)` is `7`),
`isocalendar()[1]` as `isoWeek`, and `.year` as `year`. -/
structure Date where
  t : ℤ
  isoWeek : ℕ
  year : ℤ
  deriving Repr, DecidableEq

/-- One entry of a member's list in `contributions.json`: the dict
`{"amount": .., "date": .., "timestamp": ..}` built by `add_contribution`
(`src/app.py` lines 126-130). -/
structure ContribRecord where
  amount : ℚ
  date : Date
  timestamp : Date
  deriving Repr, DecidableEq

/-- Lookup in a Python dict modelled as an association list: `d[k]` /
`d.get(k)` returns the first entry for the key. -/
def dictGet? {β : Type} : List (String × β) → String → Option β
  | [], _ => none
  | (k, v) :: rest, key => if key = k then some v else dictGet? rest key

lemma dictGet?_nil {β : Type} (key : String) : dictGet? ([] : List (String × β)) key = none := rfl

lemma dictGet?_cons {β : Type} (k : String) (v : β) (rest : List (String × β)) (key : String) :
    dictGet? ((k, v) :: rest) key = if key = k then some v else dictGet? rest key := rfl

/-- Python dict assignment `d[k] = g(d[k])` on a present key: every entry
holding the key is rewritten in place. -/
def dictUpdate {β : Type} (g : β → β) (c : String) (l : List (String × β)) :
    List (String × β) :=
  l.map (fun e => if e.1 = c then (e.1, g e.2) else e)

/-- Updating the entries of key `c` does not change lookups of other keys. -/
lemma dictGet?_dictUpdate_ne {β : Type} (g : β → β) (c : String) (l : List (String × β))
    {x : String} (hx : x ≠ c) :
    dictGet? (dictUpdate g c l) x = dictGet? l x := by
  induction l with
  | nil => rfl
  | cons e rest ih =>
    obtain ⟨k, v⟩ := e
    by_cases hk : k = c
    · have hxk : x ≠ k := fun h => hx (h.trans hk)
      simp only [dictUpdate, List.map_cons] at ih ⊢
      rw [if_pos hk]
      rw [dictGet?_cons, dictGet?_cons, if_neg hxk, if_neg hxk]
      exact ih
    · simp only [dictUpdate, List.map_cons] at ih ⊢
      rw [if_neg hk, dictGet?_cons, dictGet?_cons]
      by_cases hxk : x = k
      · rw [if_pos hxk, if_pos hxk]
      · rw [if_neg hxk, if_neg hxk]
        exact ih

/-- Updating the entries of a present key makes its lookup the updated
value. -/
lemma dictGet?_dictUpdate_self {β : Type} (g : β → β) (c : String) (l : List (String × β))
    (h : (dictGet? l c).isSome) :
    dictGet? (dictUpdate g c l) c = (dictGet? l c).map g := by
  induction l with
  | nil => simp [dictGet?_nil] at h
  | cons e rest ih =>
    obtain ⟨k, v⟩ := e
    by_cases hck : c = k
    · have hk : k = c := hck.symm
      simp only [dictUpdate, List.map_cons] at ih ⊢
      rw [if_pos hk, dictGet?_cons, dictGet?_cons, if_pos hck, if_pos hck]
      rfl
    · have hk : ¬k = c := fun hh => hck hh.symm
      rw [dictGet?_cons, if_neg hck] at h
      simp only [dictUpdate, List.map_cons] at ih ⊢
      rw [if_neg hk, dictGet?_cons, dictGet?_cons, if_neg hck, if_neg hck]
      exact ih h

/-- Appending an entry of a different key does not change a lookup. -/
lemma dictGet?_append_ne {β : Type} (l : List (String × β)) (c : String) (v : β)
    {x : String} (hx : x ≠ c) :
    dictGet? (l ++ [(c, v)]) x = dictGet? l x := by
  induction l with
  | nil => simp [dictGet?_nil, dictGet?_cons, hx]
  | cons e rest ih =>
    obtain ⟨k, w⟩ := e
    rw [List.cons_append, dictGet?_cons, dictGet?_cons]
    by_cases hxk : x = k
    · rw [if_pos hxk, if_pos hxk]
    · rw [if_neg hxk, if_neg hxk]
      exact ih

/-- Appending an entry of an absent key makes its lookup the new value. -/
lemma dictGet?_append_self {β : Type} (l : List (String × β)) (c : String) (v : β)
    (h : dictGet? l c = none) :
    dictGet? (l ++ [(c, v)]) c = some v := by
  induction l with
  | nil => simp [dictGet?_cons]
  | cons e rest ih =>
    obtain ⟨k, w⟩ := e
    rw [dictGet?_cons] at h
    by_cases hck : c = k
    · rw [if_pos hck] at h
      cases h
    · rw [if_neg hck] at h
      rw [List.cons_append, dictGet?_cons, if_neg hck]
      exact ih h

/-- The `contributions.json` document: `member -> list of contribution
records`, as an insertion-ordered dict. -/
abbrev Contributions := List (String × List ContribRecord)

/-- `contributions.get(member, [])`. -/
def memberContribs (c : Contributions) (member : String) : List ContribRecord :=
  (dictGet? c member).getD []

/-- `add_contribution(member, amount, date=None)` from `src/app.py` lines
117-131: when `date is None` it defaults to `datetime.now()`; if the member
key is absent it is created; the record is appended to the member's list.
No validation of any kind is performed by this function. -/
def add_contribution (c : Contributions) (member : String) (amount : ℚ)
    (date : Option Date) (now : Date) : Contributions :=
  let record : ContribRecord := { amount := amount, date := date.getD now, timestamp := now }
  if (dictGet? c member).isSome then
    dictUpdate (fun l => l ++ [record]) member c
  else
    c ++ [(member, [record])]

/-- `calculate_total_contributions()` from `src/app.py` lines 100-107:
iterates over the fixed `MEMBERS` list only, summing
`contributions.get(member, [])` amounts. -/
def calculate_total_contributions (c : Contributions) : List (String × ℚ) :=
  MEMBERS.map (fun m => (m, ((memberContribs c m).map (·.amount)).sum))

/-- `sum(calculate_total_contributions().values())` — the total pool. -/
def total_pool (c : Contributions) : ℚ :=
  ((calculate_total_contributions c).map (·.2)).sum

/-- The member's total from `calculate_total_contributions` (the spec's
`total_contributed(member)`). -/
def total_contributed (c : Contributions) (member : String) : ℚ :=
  ((memberContribs c member).map (·.amount)).sum

/-- `calculate_ownership_percentages()` from `src/app.py` lines 109-115:
all-zero when the pool is `0`, otherwise `amount / total_pool * 100`
entrywise. -/
def calculate_ownership_percentages (c : Contributions) : List (String × ℚ) :=
  let totals := calculate_total_contributions c
  let pool := (totals.map (·.2)).sum
  if pool = 0 then MEMBERS.map (fun m => (m, 0))
  else totals.map (fun p => (p.1, p.2 / pool * 100))

/-- The percentage reported for one member by
`calculate_ownership_percentages`. -/
def ownership_percentage (c : Contributions) (member : String) : ℚ :=
  (dictGet? (calculate_ownership_percentages c) member).getD 0

/-- A sample date used in concrete instances. -/
def d0 : Date := ⟨0, 1, 2026⟩

example : total_pool [("Charles", [⟨100, d0, d0⟩])] = 100 := by
  norm_num +decide [total_pool, calculate_total_contributions, memberContribs, dictGet?, MEMBERS]

example :
    ownership_percentage
      [("Charles", [⟨100, d0, d0⟩]), ("Ross Parmenter", [⟨300, d0, d0⟩])] "Charles" = 25 := by
  norm_num +decide [ownership_percentage, calculate_ownership_percentages,
    calculate_total_contributions, memberContribs, dictGet?, MEMBERS]

/-- One entry of `transactions.json`: the dict built by `add_transaction` /
`add_transaction_with_date` (`src/app.py` lines 140-148 and 492-502).  The
field `kind` stands for the Python key `"type"`; `total_cost` is stored at
creation as `amount * price + transaction_fee`. -/
structure TransactionRecord where
  crypto : String
  amount : ℚ
  price : ℚ
  transaction_fee : ℚ
  total_cost : ℚ
  kind : String
  date : Date
  notes : String
  deriving Repr, DecidableEq

/-- The `portfolio.json` document: `asset symbol -> quantity owned`. -/
abbrev Portfolio := List (String × ℚ)

/-- `portfolio.get(crypto, 0)`. -/
def portfolioGet (p : Portfolio) (crypto : String) : ℚ :=
  (dictGet? p crypto).getD 0

/-- `portfolio[crypto] = q`: rewrite the entries holding the key, or append
a new entry when the key is absent (Python dict assignment). -/
def portfolioSet (p : Portfolio) (crypto : String) (q : ℚ) : Portfolio :=
  if (dictGet? p crypto).isSome then
    dictUpdate (fun _ => q) crypto p
  else
    p ++ [(crypto, q)]

/-- The three persisted documents together: the state a page flow loads,
mutates and saves. -/
structure ClubState where
  contributions : Contributions
  transactions : List TransactionRecord
  portfolio : Portfolio
  deriving Repr, DecidableEq

/-- `add_transaction_with_date(crypto, amount, price, transaction_fee, date,
notes)` from `src/app.py` lines 485-512: computes
`total_cost = amount * price + transaction_fee`, appends a `"buy"` record,
and increments `portfolio[crypto]` by `amount` (creating the key at `0`
first when absent). -/
def add_transaction_with_date (s : ClubState) (crypto : String)
    (amount price transaction_fee : ℚ) (date : Date) (notes : String) : ClubState :=
  let total_cost := amount * price + transaction_fee
  let t : TransactionRecord :=
    { crypto := crypto, amount := amount, price := price,
      transaction_fee := transaction_fee, total_cost := total_cost,
      kind := "buy", date := date, notes := notes }
  { s with
    transactions := s.transactions ++ [t],
    portfolio := portfolioSet s.portfolio crypto (portfolioGet s.portfolio crypto + amount) }

/-- `add_transaction(crypto, amount, price, transaction_fee=0.0,
transaction_type="buy")` from `src/app.py` lines 133-157: appends the record
with the given `type`, and increments `portfolio[crypto]` by `amount` only
when the type is `"buy"`.  (The record carries no custom date; its `date`
argument here stands for the `timestamp` it is created with.) -/
def add_transaction (s : ClubState) (crypto : String)
    (amount price transaction_fee : ℚ) (kind : String) (date : Date) : ClubState :=
  let total_cost := amount * price + transaction_fee
  let t : TransactionRecord :=
    { crypto := crypto, amount := amount, price := price,
      transaction_fee := transaction_fee, total_cost := total_cost,
      kind := kind, date := date, notes := "" }
  { s with
    transactions := s.transactions ++ [t],
    portfolio :=
      if kind = "buy" then
        portfolioSet s.portfolio crypto (portfolioGet s.portfolio crypto + amount)
      else s.portfolio }

/-- The available balance computed by `show_buy_crypto_page`
(`src/app.py` lines 385-388): total contributions minus the `total_cost` of
all `"buy"` transactions. -/
def available_balance (s : ClubState) : ℚ :=
  total_pool s.contributions
    - ((s.transactions.filter (fun t => t.kind = "buy")).map (·.total_cost)).sum

/-- How a run of the Buy Crypto page can refuse to record a purchase:
either the early `available_balance <= 0` return (`src/app.py` line 392),
or a non-empty `validation_errors` list that disables the Record button
(`src/app.py` lines 462-479). -/
inductive PurchaseError where
  | noAvailableBalance : PurchaseError
  | invalidInput (msgs : List String) : PurchaseError
  deriving Repr, DecidableEq

/-- The message of `src/app.py` line 470 (the f-string rendering of the
amounts is elided). -/
def balanceExceededMsg : String := "Total cost exceeds available balance"

/-- The `validation_errors` list of `show_buy_crypto_page`
(`src/app.py` lines 462-470), with the literal messages abbreviated. -/
def purchase_validation_errors (s : ClubState) (crypto : String)
    (amount price fee : ℚ) : List String :=
  (if crypto = "" then ["Please select or enter a cryptocurrency"] else []) ++
  (if amount ≤ 0 then ["Crypto amount must be greater than 0"] else []) ++
  (if price ≤ 0 then ["Price per unit must be greater than 0"] else []) ++
  (if amount * price + fee > available_balance s then [balanceExceededMsg] else [])

/-- One run of the Buy Crypto page (`show_buy_crypto_page`, `src/app.py`
lines 380-483) against the loaded state `s`: the flow returns early when
`available_balance <= 0`; otherwise the Record button is enabled only when
`validation_errors` is empty, in which case `add_transaction_with_date`
runs; in every refused case the saved state is exactly `s`. -/
def record_purchase (s : ClubState) (crypto : String) (amount price fee : ℚ)
    (date : Date) (notes : String) : ClubState × Option PurchaseError :=
  if available_balance s ≤ 0 then (s, some .noAvailableBalance)
  else if (purchase_validation_errors s crypto amount price fee).isEmpty then
    (add_transaction_with_date s crypto amount price fee date notes, none)
  else (s, some (.invalidInput (purchase_validation_errors s crypto amount price fee)))

/-- Whether a refusal is (or contains) the balance-insufficiency error —
the implementation counterpart of the spec's `InsufficientBalanceError`. -/
def PurchaseError.insufficientBalance : PurchaseError → Bool
  | .noAvailableBalance => true
  | .invalidInput msgs => msgs.contains balanceExceededMsg

/-- An `if c then [x] else []` block of the validation list is empty exactly
when its condition fails. -/
lemma if_singleton_eq_nil {c : Prop} [Decidable c] {x : String} :
    ((if c then [x] else []) = []) ↔ ¬c := by
  split <;> simp_all

/-- If the validation list of the Buy Crypto page is empty, every one of
its four conditions is false. -/
lemma purchase_validation_errors_empty {s : ClubState} {crypto : String}
    {amount price fee : ℚ}
    (h : (purchase_validation_errors s crypto amount price fee).isEmpty = true) :
    ¬crypto = "" ∧ ¬amount ≤ 0 ∧ ¬price ≤ 0 ∧
      ¬amount * price + fee > available_balance s := by
  rw [List.isEmpty_iff] at h
  unfold purchase_validation_errors at h
  simp only [List.append_eq_nil] at h
  obtain ⟨⟨⟨h1, h2⟩, h3⟩, h4⟩ := h
  exact ⟨if_singleton_eq_nil.mp h1, if_singleton_eq_nil.mp h2,
    if_singleton_eq_nil.mp h3, if_singleton_eq_nil.mp h4⟩

/-- **C1.**  A call to the purchase flow whose computed
`total_cost = unit_amount * unit_price + fee` exceeds `available_balance()`
at the moment of the call is refused with the balance-insufficiency error
(the spec's `InsufficientBalanceError`): the returned state is exactly the
state that was loaded, so the attempted `TransactionRecord` is never
appended and neither the transaction ledger, the holdings map nor the
balance changes. -/
theorem c1_record_purchase_insufficient_balance_fails
    (s : ClubState) (crypto : String) (amount price fee : ℚ) (date : Date)
    (notes : String)
    (h : available_balance s < amount * price + fee) :
    ∃ e, record_purchase s crypto amount price fee date notes = (s, some e) ∧
      e.insufficientBalance = true := by
  by_cases hb : available_balance s ≤ 0
  · exact ⟨.noAvailableBalance, by simp [record_purchase, hb], rfl⟩
  · have hmem : balanceExceededMsg ∈ purchase_validation_errors s crypto amount price fee := by
      unfold purchase_validation_errors
      have : amount * price + fee > available_balance s := h
      simp only [if_pos this, List.mem_append, List.mem_singleton]
      tauto
    have hne : (purchase_validation_errors s crypto amount price fee).isEmpty = false := by
      cases herr : purchase_validation_errors s crypto amount price fee with
      | nil => rw [herr] at hmem; cases hmem
      | cons a l => rfl
    refine ⟨.invalidInput (purchase_validation_errors s crypto amount price fee), ?_, ?_⟩
    · simp [record_purchase, hb, hne]
    · simpa [PurchaseError.insufficientBalance] using hmem

/-- Witness for C1: on the empty state (balance `0`) a purchase of total
cost `1` is refused with the balance-insufficiency error. -/
theorem c1_witness :
    available_balance ⟨[], [], []⟩ < 1 * 1 + 0 ∧
    ∃ e, record_purchase ⟨[], [], []⟩ "BTC" 1 1 0 d0 "" = (⟨[], [], []⟩, some e) ∧
      e.insufficientBalance = true :=
  ⟨by norm_num [available_balance, total_pool, calculate_total_contributions,
      memberContribs, dictGet?, MEMBERS],
   c1_record_purchase_insufficient_balance_fails ⟨[], [], []⟩ "BTC" 1 1 0 d0 ""
     (by norm_num [available_balance, total_pool, calculate_total_contributions,
       memberContribs, dictGet?, MEMBERS])⟩

/-- A successful run of the purchase flow is exactly an
`add_transaction_with_date`, and implies the flow's guards all passed. -/
lemma record_purchase_ok {s : ClubState} {crypto : String} {amount price fee : ℚ}
    {date : Date} {notes : String} {s' : ClubState}
    (h : record_purchase s crypto amount price fee date notes = (s', none)) :
    s' = add_transaction_with_date s crypto amount price fee date notes ∧
    ¬available_balance s ≤ 0 ∧
    (purchase_validation_errors s crypto amount price fee).isEmpty = true := by
  unfold record_purchase at h
  split at h
  · simp at h
  · split at h
    · next hempty => exact ⟨(Prod.mk.injEq _ _ _ _ ▸ h).1.symm, by assumption, hempty⟩
    · simp at h

/-- The balance reported after an `add_transaction_with_date` drops by the
record's `total_cost`. -/
lemma available_balance_add_transaction_with_date (s : ClubState) (crypto : String)
    (amount price fee : ℚ) (date : Date) (notes : String) :
    available_balance (add_transaction_with_date s crypto amount price fee date notes)
      = available_balance s - (amount * price + fee) := by
  unfold available_balance add_transaction_with_date
  simp [List.filter_append]
  ring

/-- **C2.**  `available_balance()` equals the contribution pool minus the
sum of `total_cost` over all transaction records (on ledgers where every
record is a `"buy"`, the only kind the application writes); it drops by
exactly the purchase's `total_cost` after each successful run of the
purchase flow — strictly, whenever the fee is non-negative as the form
enforces — and is unchanged after a refused one. -/
theorem c2_available_balance (s : ClubState) (crypto : String)
    (amount price fee : ℚ) (date : Date) (notes : String) :
    ((∀ t ∈ s.transactions, t.kind = "buy") →
      available_balance s
        = total_pool s.contributions - ((s.transactions.map (·.total_cost)).sum)) ∧
    (∀ s', record_purchase s crypto amount price fee date notes = (s', none) →
      available_balance s' = available_balance s - (amount * price + fee) ∧
      (0 ≤ fee → available_balance s' < available_balance s)) ∧
    (∀ s' e, record_purchase s crypto amount price fee date notes = (s', some e) →
      s' = s) := by
  refine ⟨?_, ?_, ?_⟩
  · intro h
    unfold available_balance
    rw [List.filter_eq_self.mpr (fun t ht => by simp [h t ht])]
  · intro s' h
    obtain ⟨hs', _, hvalid⟩ := record_purchase_ok h
    subst hs'
    obtain ⟨_, hamount, hprice, _⟩ := purchase_validation_errors_empty hvalid
    refine ⟨available_balance_add_transaction_with_date .., ?_⟩
    intro hfee
    rw [available_balance_add_transaction_with_date]
    have hpos : 0 < amount * price + fee := by
      have := mul_pos (lt_of_not_le hamount) (lt_of_not_le hprice)
      linarith
    linarith
  · intro s' e h
    unfold record_purchase at h
    split at h
    · exact ((Prod.mk.injEq _ _ _ _ ▸ h).1).symm
    · split at h
      · simp at h
      · exact ((Prod.mk.injEq _ _ _ _ ▸ h).1).symm

/-- A one-member, one-contribution state used in concrete instances. -/
def s100 : ClubState := ⟨[("Charles", [⟨100, d0, d0⟩])], [], []⟩

/-- Witness for C2: on a state with a 100-unit pool and no transactions,
the invariant holds, and recording a purchase of total cost `2` succeeds
and drops the balance from `100` to `98`. -/
theorem c2_witness :
    available_balance s100
      = total_pool s100.contributions - ((s100.transactions.map (·.total_cost)).sum) ∧
    available_balance (add_transaction_with_date s100 "BTC" 1 2 0 d0 "")
      = available_balance s100 - (1 * 2 + 0) :=
  ⟨(c2_available_balance s100 "BTC" 1 2 0 d0 "").1 (by simp [s100]),
   (((c2_available_balance s100 "BTC" 1 2 0 d0 "").2.1
       (add_transaction_with_date s100 "BTC" 1 2 0 d0 "")
       (by norm_num +decide [record_purchase, purchase_validation_errors,
         available_balance, total_pool, calculate_total_contributions,
         memberContribs, dictGet?, MEMBERS, s100])).1)⟩

/-- Python dict assignment through `portfolioSet`, observed through
`portfolioGet`: the assigned key reads the new value, others are
unchanged. -/
lemma portfolioGet_set (p : Portfolio) (c : String) (q : ℚ) (x : String) :
    portfolioGet (portfolioSet p c q) x = if x = c then q else portfolioGet p x := by
  unfold portfolioSet portfolioGet
  by_cases hx : x = c
  · subst hx
    by_cases h : (dictGet? p x).isSome
    · rw [if_pos h, dictGet?_dictUpdate_self (fun _ => q) x p h]
      obtain ⟨w, hw⟩ := Option.isSome_iff_exists.mp h
      simp [hw]
    · rw [if_neg h, dictGet?_append_self p x q (Option.not_isSome_iff_eq_none.mp h)]
      simp
  · by_cases h : (dictGet? p c).isSome
    · rw [if_pos h, dictGet?_dictUpdate_ne (fun _ => q) c p hx]
      simp [hx]
    · rw [if_neg h, dictGet?_append_ne p c q hx]
      simp [hx]

def buyAmountSum (txs : List TransactionRecord) (asset : String) : ℚ :=
  ((txs.filter (fun t => t.kind = "buy" ∧ t.crypto = asset)).map (·.amount)).sum

lemma buyAmountSum_append_one (txs : List TransactionRecord) (t : TransactionRecord)
    (asset : String) :
    buyAmountSum (txs ++ [t]) asset
      = buyAmountSum txs asset
        + (if t.kind = "buy" ∧ t.crypto = asset then t.amount else 0) := by
  unfold buyAmountSum
  rw [List.filter_append]
  by_cases h : t.kind = "buy" ∧ t.crypto = asset
  · simp [h]
  · simp [h]

/-- The spec's HoldingsMap invariant: every asset's stored quantity equals
the summed `unit_amount` of its `"buy"` records. -/
def HoldingsInvariant (s : ClubState) : Prop :=
  ∀ asset, portfolioGet s.portfolio asset = buyAmountSum s.transactions asset

lemma holdings_add_transaction_with_date {s : ClubState} (h : HoldingsInvariant s)
    (crypto : String) (amount price fee : ℚ) (date : Date) (notes : String) :
    HoldingsInvariant (add_transaction_with_date s crypto amount price fee date notes) := by
  intro asset
  unfold add_transaction_with_date
  simp only
  rw [portfolioGet_set, buyAmountSum_append_one]
  by_cases hx : asset = crypto
  · subst hx
    rw [if_pos rfl, if_pos ⟨rfl, rfl⟩, h asset]
  · have hc : ¬("buy" = "buy" ∧ crypto = asset) := fun hc => hx hc.2.symm
    rw [if_neg hx, if_neg hc, add_zero, h asset]

lemma holdings_add_transaction {s : ClubState} (h : HoldingsInvariant s)
    (crypto : String) (amount price fee : ℚ) (kind : String) (date : Date) :
    HoldingsInvariant (add_transaction s crypto amount price fee kind date) := by
  intro asset
  unfold add_transaction
  simp only
  rw [buyAmountSum_append_one]
  by_cases hbuy : kind = "buy"
  · subst hbuy
    rw [if_pos rfl, portfolioGet_set]
    by_cases hx : asset = crypto
    · subst hx
      rw [if_pos rfl, if_pos ⟨rfl, rfl⟩, h asset]
    · have hc : ¬("buy" = "buy" ∧ crypto = asset) := fun hc => hx hc.2.symm
      rw [if_neg hx, if_neg hc, add_zero, h asset]
  · have hc : ¬(kind = "buy" ∧ crypto = asset) := fun hc => hbuy hc.1
    rw [if_neg hbuy, if_neg hc, add_zero, h asset]

/-- `init_data_files()` (`src/app.py` lines 48-59): every member starts
with an empty contribution list, the transaction ledger starts empty, and
the portfolio starts as `{"BTC": 0, "ETH": 0}`. -/
def initState : ClubState :=
  { contributions := MEMBERS.map (fun m => (m, [])),
    transactions := [],
    portfolio := [("BTC", 0), ("ETH", 0)] }

/-- One ledger mutation the application can perform: an
`add_contribution`, a run of the Buy Crypto page, or a raw
`add_transaction` call. -/
inductive Step : ClubState → ClubState → Prop where
  | contrib (s : ClubState) (m : String) (a : ℚ) (d : Option Date) (now : Date) :
      Step s { s with contributions := add_contribution s.contributions m a d now }
  | purchase (s : ClubState) (crypto : String) (amount price fee : ℚ)
      (date : Date) (notes : String) :
      Step s (record_purchase s crypto amount price fee date notes).1
  | rawTransaction (s : ClubState) (crypto : String) (amount price fee : ℚ)
      (kind : String) (date : Date) :
      Step s (add_transaction s crypto amount price fee kind date)

/-- The states the application can reach from its initial data files. -/
inductive Reachable : ClubState → Prop where
  | init : Reachable initState
  | step {s s' : ClubState} : Reachable s → Step s s' → Reachable s'

lemma holdings_invariant_init : HoldingsInvariant initState := by
  intro asset
  unfold initState portfolioGet buyAmountSum
  simp only [List.filter_nil, List.map_nil, List.sum_nil, dictGet?_cons]
  by_cases h1 : asset = "BTC"
  · rw [if_pos h1]
    rfl
  · rw [if_neg h1]
    by_cases h2 : asset = "ETH"
    · rw [if_pos h2]
      rfl
    · rw [if_neg h2, dictGet?_nil]
      rfl

/-- Every single application step preserves the holdings invariant. -/
lemma holdings_invariant_step {s s' : ClubState} (hinv : HoldingsInvariant s)
    (hstep : Step s s') : HoldingsInvariant s' := by
  cases hstep with
  | contrib m a d now => exact fun asset => hinv asset
  | purchase crypto amount price fee date notes =>
    unfold record_purchase
    split
    · exact hinv
    · split
      · exact holdings_add_transaction_with_date hinv crypto amount price fee date notes
      · exact hinv
  | rawTransaction crypto amount price fee kind date =>
    exact holdings_add_transaction hinv crypto amount price fee kind date

/-- **C3.**  In every reachable state, for every asset, the holdings map
entry equals the sum of `unit_amount` over all `"buy"` transaction records
for that asset; the holdings map is only ever written while appending a
transaction record, so after `N` purchases of an asset its holding is the
exact sum of their `unit_amount`s. -/
theorem c3_holdings_invariant {s : ClubState} (h : Reachable s) (asset : String) :
    portfolioGet s.portfolio asset = buyAmountSum s.transactions asset := by
  revert asset
  induction h with
  | init => exact holdings_invariant_init
  | step _ hstep ih => exact holdings_invariant_step ih hstep

/-- Witness for C3: the state reached by one contribution of `100` followed
by one successful `BTC` purchase is reachable, and its `BTC` holding equals
the summed bought amount. -/
theorem c3_witness :
    Reachable (record_purchase
      { initState with
        contributions := add_contribution initState.contributions "Charles" 100 none d0 }
      "BTC" 1 2 0 d0 "").1 ∧
    portfolioGet (record_purchase
      { initState with
        contributions := add_contribution initState.contributions "Charles" 100 none d0 }
      "BTC" 1 2 0 d0 "").1.portfolio "BTC"
      = buyAmountSum (record_purchase
      { initState with
        contributions := add_contribution initState.contributions "Charles" 100 none d0 }
      "BTC" 1 2 0 d0 "").1.transactions "BTC" :=
  ⟨Reachable.step
      (Reachable.step Reachable.init (Step.contrib initState "Charles" 100 none d0))
      (Step.purchase _ "BTC" 1 2 0 d0 ""),
   c3_holdings_invariant
     (Reachable.step
       (Reachable.step Reachable.init (Step.contrib initState "Charles" 100 none d0))
       (Step.purchase _ "BTC" 1 2 0 d0 "")) "BTC"⟩

/-- A successful `dictGet?` returns an entry of the list. -/
lemma dictGet?_mem {β : Type} {l : List (String × β)} {k : String} {v : β}
    (h : dictGet? l k = some v) : (k, v) ∈ l := by
  induction l with
  | nil => cases h
  | cons e rest ih =>
    obtain ⟨a, b⟩ := e
    rw [dictGet?_cons] at h
    by_cases hk : k = a
    · rw [if_pos hk] at h
      injection h with hbv
      subst hk
      subst hbv
      exact List.mem_cons_self _ _
    · rw [if_neg hk] at h
      exact List.mem_cons_of_mem _ (ih h)

/-- Looking a member up in the all-zero percentage table. -/
lemma dictGet?_const_zero (l : List String) {m : String} (hm : m ∈ l) :
    dictGet? (l.map (fun x => (x, (0 : ℚ)))) m = some 0 := by
  induction l with
  | nil => cases hm
  | cons a rest ih =>
    simp only [List.map_cons, dictGet?_cons]
    by_cases hma : m = a
    · rw [if_pos hma]
    · rw [if_neg hma]
      exact ih ((List.mem_cons.mp hm).resolve_left hma)

/-- Looking a member up in the scaled totals table built by the non-zero
branch of `calculate_ownership_percentages`. -/
lemma dictGet?_scaled_totals (c : Contributions) (pool : ℚ) (l : List String) {m : String}
    (hm : m ∈ l) :
    dictGet? (((l.map (fun x => (x, total_contributed c x))).map
        (fun p => (p.1, p.2 / pool * 100)))) m
      = some (total_contributed c m / pool * 100) := by
  induction l with
  | nil => cases hm
  | cons a rest ih =>
    simp only [List.map_cons, dictGet?_cons]
    by_cases hma : m = a
    · rw [if_pos hma, hma]
    · rw [if_neg hma]
      exact ih ((List.mem_cons.mp hm).resolve_left hma)

/-- The entries of `calculate_total_contributions` are exactly the member
totals. -/
lemma calculate_total_contributions_eq (c : Contributions) :
    calculate_total_contributions c = MEMBERS.map (fun m => (m, total_contributed c m)) := rfl

/-- The reported percentage table, characterised per member. -/
lemma ownership_percentage_eq (c : Contributions) {m : String} (hm : m ∈ MEMBERS) :
    ownership_percentage c m
      = if total_pool c = 0 then 0 else total_contributed c m / total_pool c * 100 := by
  unfold ownership_percentage calculate_ownership_percentages
  show (dictGet? (if total_pool c = 0 then MEMBERS.map (fun m => (m, (0 : ℚ)))
      else (calculate_total_contributions c).map
        (fun p => (p.1, p.2 / total_pool c * 100))) m).getD 0 = _
  by_cases h0 : total_pool c = 0
  · rw [if_pos h0, if_pos h0, dictGet?_const_zero MEMBERS hm]
    rfl
  · rw [if_neg h0, if_neg h0, calculate_total_contributions_eq,
      dictGet?_scaled_totals c (total_pool c) MEMBERS hm]
    rfl

lemma total_contributed_nonneg {c : Contributions}
    (hpos : ∀ p ∈ c, ∀ r ∈ p.2, 0 ≤ r.amount) (m : String) :
    0 ≤ total_contributed c m := by
  unfold total_contributed memberContribs
  cases hd : dictGet? c m with
  | none => simp
  | some l =>
    have hmem := dictGet?_mem hd
    simp only [Option.getD_some]
    apply List.sum_nonneg
    intro x hx
    obtain ⟨r, hr, rfl⟩ := List.mem_map.mp hx
    exact hpos (m, l) hmem r hr

lemma total_contributed_mem_totals (c : Contributions) {m : String} (hm : m ∈ MEMBERS) :
    total_contributed c m ∈ (calculate_total_contributions c).map (·.2) := by
  rw [calculate_total_contributions_eq, List.map_map]
  exact List.mem_map_of_mem _ hm

lemma totals_values_nonneg {c : Contributions}
    (hpos : ∀ p ∈ c, ∀ r ∈ p.2, 0 ≤ r.amount) :
    ∀ x ∈ (calculate_total_contributions c).map (·.2), 0 ≤ x := by
  intro x hx
  obtain ⟨p, hp, rfl⟩ := List.mem_map.mp hx
  rw [calculate_total_contributions_eq] at hp
  obtain ⟨m', _, rfl⟩ := List.mem_map.mp hp
  exact total_contributed_nonneg hpos m'

lemma total_pool_nonneg {c : Contributions}
    (hpos : ∀ p ∈ c, ∀ r ∈ p.2, 0 ≤ r.amount) : 0 ≤ total_pool c :=
  List.sum_nonneg (totals_values_nonneg hpos)

lemma total_contributed_le_pool {c : Contributions}
    (hpos : ∀ p ∈ c, ∀ r ∈ p.2, 0 ≤ r.amount) {m : String} (hm : m ∈ MEMBERS) :
    total_contributed c m ≤ total_pool c :=
  List.single_le_sum (totals_values_nonneg hpos) _ (total_contributed_mem_totals c hm)

/-- **C4.**  On a ledger whose contribution amounts are non-negative (as
the input form guarantees), each registered member's reported ownership
percentage equals `total_contributed / total_pool * 100` and lies in
`[0, 100]` whenever the pool is positive, and is `0` for every member when
the pool is `0` — never a division error. -/
theorem c4_ownership_percentage (c : Contributions)
    (hpos : ∀ p ∈ c, ∀ r ∈ p.2, 0 ≤ r.amount) {m : String} (hm : m ∈ MEMBERS) :
    (total_pool c = 0 → ownership_percentage c m = 0) ∧
    (0 < total_pool c →
      ownership_percentage c m = total_contributed c m / total_pool c * 100 ∧
      0 ≤ ownership_percentage c m ∧ ownership_percentage c m ≤ 100) := by
  constructor
  · intro h0
    rw [ownership_percentage_eq c hm, if_pos h0]
  · intro hpool
    have h0 : ¬ total_pool c = 0 := ne_of_gt hpool
    have heq : ownership_percentage c m = total_contributed c m / total_pool c * 100 := by
      rw [ownership_percentage_eq c hm, if_neg h0]
    refine ⟨heq, ?_, ?_⟩
    · rw [heq]
      have := total_contributed_nonneg hpos m
      positivity
    · rw [heq]
      have hle : total_contributed c m / total_pool c ≤ 1 :=
        (div_le_one hpool).mpr (total_contributed_le_pool hpos hm)
      nlinarith

/-- Witness for C4: in the `{Charles: 100, Ross Parmenter: 300}` ledger the
pool is positive and Charles's reported share is `25%`. -/
theorem c4_witness :
    (∀ p ∈ ([("Charles", [⟨100, d0, d0⟩]), ("Ross Parmenter", [⟨300, d0, d0⟩])] : Contributions),
      ∀ r ∈ p.2, 0 ≤ r.amount) ∧
    "Charles" ∈ MEMBERS ∧
    (0 < total_pool [("Charles", [⟨100, d0, d0⟩]), ("Ross Parmenter", [⟨300, d0, d0⟩])] →
      ownership_percentage [("Charles", [⟨100, d0, d0⟩]), ("Ross Parmenter", [⟨300, d0, d0⟩])]
          "Charles"
        = total_contributed [("Charles", [⟨100, d0, d0⟩]), ("Ross Parmenter", [⟨300, d0, d0⟩])]
            "Charles"
          / total_pool [("Charles", [⟨100, d0, d0⟩]), ("Ross Parmenter", [⟨300, d0, d0⟩])] * 100 ∧
      0 ≤ ownership_percentage
          [("Charles", [⟨100, d0, d0⟩]), ("Ross Parmenter", [⟨300, d0, d0⟩])] "Charles" ∧
      ownership_percentage
          [("Charles", [⟨100, d0, d0⟩]), ("Ross Parmenter", [⟨300, d0, d0⟩])] "Charles" ≤ 100) :=
  ⟨by
    intro p hp r hr
    simp only [List.mem_cons, List.not_mem_nil, or_false] at hp
    rcases hp with rfl | rfl <;> simp_all,
   by norm_num [MEMBERS],
   (c4_ownership_percentage
      [("Charles", [⟨100, d0, d0⟩]), ("Ross Parmenter", [⟨300, d0, d0⟩])]
      (by
        intro p hp r hr
        simp only [List.mem_cons, List.not_mem_nil, or_false] at hp
        rcases hp with rfl | rfl <;> simp_all)
      (by norm_num [MEMBERS])).2⟩

/-- The running totals `{"invested": .., "amount": ..}` kept per asset by
`calculate_roi_by_crypto` (`src/utils.py` line 165). -/
structure RoiStat where
  invested : ℚ
  amount : ℚ
  deriving Repr, DecidableEq

/-- One value of the dict returned by `calculate_roi_by_crypto`
(`src/utils.py` lines 178-183). -/
structure RoiData where
  invested : ℚ
  current_value : ℚ
  roi_percentage : ℚ
  amount_held : ℚ
  deriving Repr, DecidableEq

/-- A price snapshot `Dict[str, float]` as handed to the analytics. -/
abbrev Prices := List (String × ℚ)

/-- The first loop of `calculate_roi_by_crypto` (`src/utils.py` lines
167-171): for every `"buy"` transaction, `crypto_stats[tx["crypto"]]` is
read and updated in place.  In Python an asset symbol that is not a key of
`crypto_stats` raises `KeyError`; that crash is modelled as `none`. -/
def accumulate_stats (stats : List (String × RoiStat)) :
    List TransactionRecord → Option (List (String × RoiStat))
  | [] => some stats
  | t :: rest =>
    if t.kind = "buy" then
      match dictGet? stats t.crypto with
      | none => none
      | some st =>
        accumulate_stats
          (dictUpdate (fun _ => ⟨st.invested + t.total_cost, st.amount + t.amount⟩)
            t.crypto stats) rest
    else accumulate_stats stats rest

/-- The second loop of `calculate_roi_by_crypto` (`src/utils.py` lines
173-183): an asset with positive `invested` is reported with
`current_value = amount * prices[crypto]` and
`roi_percentage = (current_value - invested) / invested * 100`; others are
skipped.  `prices[crypto]` raises `KeyError` when the snapshot lacks the
key; that crash is modelled as `none`. -/
def roi_entries (prices : Prices) :
    List (String × RoiStat) → Option (List (String × RoiData))
  | [] => some []
  | (crypto, st) :: rest =>
    if 0 < st.invested then
      match dictGet? prices crypto with
      | none => none
      | some pr =>
        match roi_entries prices rest with
        | none => none
        | some r =>
          some ((crypto,
            { invested := st.invested,
              current_value := st.amount * pr,
              roi_percentage := (st.amount * pr - st.invested) / st.invested * 100,
              amount_held := st.amount }) :: r)
    else roi_entries prices rest

/-- `calculate_roi_by_crypto(transactions, prices)` from `src/utils.py`
lines 162-185, with the Python `KeyError` crashes surfaced as `none`.  Note
the hard-coded initial `crypto_stats = {"BTC": .., "ETH": ..}`. -/
def calculate_roi_by_crypto (transactions : List TransactionRecord) (prices : Prices) :
    Option (List (String × RoiData)) :=
  match accumulate_stats [("BTC", ⟨0, 0⟩), ("ETH", ⟨0, 0⟩)] transactions with
  | none => none
  | some stats => roi_entries prices stats

/-- The money invested in `asset`: the sum of `total_cost` over its
`"buy"` records. -/
def buyCostSum (txs : List TransactionRecord) (asset : String) : ℚ :=
  ((txs.filter (fun t => t.kind = "buy" ∧ t.crypto = asset)).map (·.total_cost)).sum

lemma buyCostSum_cons (t : TransactionRecord) (rest : List TransactionRecord)
    (asset : String) :
    buyCostSum (t :: rest) asset
      = (if t.kind = "buy" ∧ t.crypto = asset then t.total_cost else 0)
        + buyCostSum rest asset := by
  unfold buyCostSum
  by_cases h : t.kind = "buy" ∧ t.crypto = asset
  · rw [List.filter_cons_of_pos (by simpa using h), List.map_cons, List.sum_cons, if_pos h]
  · rw [List.filter_cons_of_neg (by simpa using h), if_neg h, zero_add]

lemma buyAmountSum_cons (t : TransactionRecord) (rest : List TransactionRecord)
    (asset : String) :
    buyAmountSum (t :: rest) asset
      = (if t.kind = "buy" ∧ t.crypto = asset then t.amount else 0)
        + buyAmountSum rest asset := by
  unfold buyAmountSum
  by_cases h : t.kind = "buy" ∧ t.crypto = asset
  · rw [List.filter_cons_of_pos (by simpa using h), List.map_cons, List.sum_cons, if_pos h]
  · rw [List.filter_cons_of_neg (by simpa using h), if_neg h, zero_add]

/-- On a transaction list whose buys touch only the two tracked assets, the
stats loop totals exactly the filtered sums. -/
lemma accumulate_stats_eq (txs : List TransactionRecord)
    (h : ∀ t ∈ txs, t.kind = "buy" → t.crypto = "BTC" ∨ t.crypto = "ETH")
    (a b : RoiStat) :
    accumulate_stats [("BTC", a), ("ETH", b)] txs
      = some [("BTC", ⟨a.invested + buyCostSum txs "BTC", a.amount + buyAmountSum txs "BTC"⟩),
              ("ETH", ⟨b.invested + buyCostSum txs "ETH", b.amount + buyAmountSum txs "ETH"⟩)] := by
  induction txs generalizing a b with
  | nil =>
    simp [accumulate_stats, buyCostSum, buyAmountSum]
  | cons t rest ih =>
    have hrest : ∀ t ∈ rest, t.kind = "buy" → t.crypto = "BTC" ∨ t.crypto = "ETH" :=
      fun u hu => h u (List.mem_cons_of_mem _ hu)
    rw [accumulate_stats]
    by_cases hbuy : t.kind = "buy"
    · rw [if_pos hbuy]
      rcases h t (List.mem_cons_self _ _) hbuy with hc | hc
      · rw [hc]
        have hd : dictGet? [("BTC", a), ("ETH", b)] "BTC" = some a := rfl
        rw [hd]
        show accumulate_stats
            (dictUpdate (fun _ => (⟨a.invested + t.total_cost, a.amount + t.amount⟩ : RoiStat))
              "BTC" [("BTC", a), ("ETH", b)]) rest = _
        have hupd : dictUpdate
            (fun _ => (⟨a.invested + t.total_cost, a.amount + t.amount⟩ : RoiStat))
            "BTC" [("BTC", a), ("ETH", b)]
            = [("BTC", ⟨a.invested + t.total_cost, a.amount + t.amount⟩), ("ETH", b)] := rfl
        rw [hupd, ih hrest]
        have hcB : t.kind = "buy" ∧ t.crypto = "BTC" := ⟨hbuy, hc⟩
        have hcE : ¬(t.kind = "buy" ∧ t.crypto = "ETH") := by
          rintro ⟨-, he⟩
          rw [hc] at he
          exact (by decide : ¬("BTC" : String) = "ETH") he
        rw [buyCostSum_cons, buyAmountSum_cons, buyCostSum_cons, buyAmountSum_cons,
          if_pos hcB, if_pos hcB, if_neg hcE, if_neg hcE]
        simp only [zero_add, add_assoc]
      · rw [hc]
        have hd : dictGet? [("BTC", a), ("ETH", b)] "ETH" = some b := rfl
        rw [hd]
        show accumulate_stats
            (dictUpdate (fun _ => (⟨b.invested + t.total_cost, b.amount + t.amount⟩ : RoiStat))
              "ETH" [("BTC", a), ("ETH", b)]) rest = _
        have hupd : dictUpdate
            (fun _ => (⟨b.invested + t.total_cost, b.amount + t.amount⟩ : RoiStat))
            "ETH" [("BTC", a), ("ETH", b)]
            = [("BTC", a), ("ETH", ⟨b.invested + t.total_cost, b.amount + t.amount⟩)] := rfl
        rw [hupd, ih hrest]
        have hcE : t.kind = "buy" ∧ t.crypto = "ETH" := ⟨hbuy, hc⟩
        have hcB : ¬(t.kind = "buy" ∧ t.crypto = "BTC") := by
          rintro ⟨-, he⟩
          rw [hc] at he
          exact (by decide : ¬("ETH" : String) = "BTC") he
        rw [buyCostSum_cons, buyAmountSum_cons, buyCostSum_cons, buyAmountSum_cons,
          if_pos hcE, if_pos hcE, if_neg hcB, if_neg hcB]
        simp only [zero_add, add_assoc]
    · rw [if_neg hbuy, ih hrest]
      have hcB : ¬(t.kind = "buy" ∧ t.crypto = "BTC") := fun hcc => hbuy hcc.1
      have hcE : ¬(t.kind = "buy" ∧ t.crypto = "ETH") := fun hcc => hbuy hcc.1
      rw [buyCostSum_cons, buyAmountSum_cons, buyCostSum_cons, buyAmountSum_cons,
        if_neg hcB, if_neg hcB, if_neg hcE, if_neg hcE]
      simp only [zero_add]

/-- The reporting loop evaluated on the two-asset stats table. -/
lemma roi_entries_pair (prices : Prices) (sB sE : RoiStat) {pb pe : ℚ}
    (hb : dictGet? prices "BTC" = some pb) (he : dictGet? prices "ETH" = some pe) :
    roi_entries prices [("BTC", sB), ("ETH", sE)]
      = some
        ((if 0 < sB.invested then
            [("BTC", (⟨sB.invested, sB.amount * pb,
              (sB.amount * pb - sB.invested) / sB.invested * 100, sB.amount⟩ : RoiData))]
          else []) ++
         (if 0 < sE.invested then
            [("ETH", (⟨sE.invested, sE.amount * pe,
              (sE.amount * pe - sE.invested) / sE.invested * 100, sE.amount⟩ : RoiData))]
          else [])) := by
  have htail : roi_entries prices [("ETH", sE)]
      = some (if 0 < sE.invested then
          [("ETH", (⟨sE.invested, sE.amount * pe,
            (sE.amount * pe - sE.invested) / sE.invested * 100, sE.amount⟩ : RoiData))]
        else []) := by
    rw [roi_entries]
    by_cases h2 : 0 < sE.invested
    · rw [if_pos h2, he, roi_entries, if_pos h2]
    · rw [if_neg h2, roi_entries, if_neg h2]
  rw [roi_entries]
  by_cases h1 : 0 < sB.invested
  · rw [if_pos h1, hb, htail, if_pos h1, List.singleton_append]
  · rw [if_neg h1, htail, if_neg h1, List.nil_append]

/-- The ROI mapping described by the spec for the two tracked assets:
`invested` and `amount_held` are filtered sums over the asset's `"buy"`
records, `current_value` applies the snapshot price, `roi_pct` is the
relative gain as a percentage, and an asset with nothing invested is
omitted. -/
def roiResult (txs : List TransactionRecord) (pb pe : ℚ) : List (String × RoiData) :=
  (if 0 < buyCostSum txs "BTC" then
    [("BTC", (⟨buyCostSum txs "BTC", buyAmountSum txs "BTC" * pb,
      (buyAmountSum txs "BTC" * pb - buyCostSum txs "BTC") / buyCostSum txs "BTC" * 100,
      buyAmountSum txs "BTC"⟩ : RoiData))]
   else []) ++
  (if 0 < buyCostSum txs "ETH" then
    [("ETH", (⟨buyCostSum txs "ETH", buyAmountSum txs "ETH" * pe,
      (buyAmountSum txs "ETH" * pe - buyCostSum txs "ETH") / buyCostSum txs "ETH" * 100,
      buyAmountSum txs "ETH"⟩ : RoiData))]
   else [])

/-- **C5 (amended).**  For every transaction list whose `"buy"` records
involve only the tracked assets `BTC` and `ETH`, and every price snapshot
holding those two assets, `calculate_roi_by_crypto` returns exactly the
spec's ROI mapping: per asset, `invested = sum(total_cost)` and
`amount_held = sum(unit_amount)` over its `"buy"` records,
`current_value = amount_held * price`,
`roi_pct = (current_value - invested) / invested * 100`, and an asset with
no positive invested total is omitted.  (On other transaction lists the
function crashes instead — see the counterexample.) -/
theorem c5_roi_by_crypto (txs : List TransactionRecord) (prices : Prices) (pb pe : ℚ)
    (h : ∀ t ∈ txs, t.kind = "buy" → t.crypto = "BTC" ∨ t.crypto = "ETH")
    (hb : dictGet? prices "BTC" = some pb) (he : dictGet? prices "ETH" = some pe) :
    calculate_roi_by_crypto txs prices = some (roiResult txs pb pe) := by
  unfold calculate_roi_by_crypto
  rw [accumulate_stats_eq txs h ⟨0, 0⟩ ⟨0, 0⟩]
  show roi_entries prices _ = _
  rw [roi_entries_pair prices _ _ hb he]
  unfold roiResult
  norm_num

/-- **C5 counterexample.**  The claim quantifies over every transaction
list, but on a ledger holding a (perfectly valid) `ADA` purchase the
function returns no result at all — `crypto_stats` only has the hard-coded
keys `BTC` and `ETH`, so Python raises `KeyError` — instead of the ROI
mapping the claim describes. -/
theorem c5_roi_counterexample :
    calculate_roi_by_crypto [⟨"ADA", 1, 10, 0, 10, "buy", d0, ""⟩]
      [("BTC", 97500), ("ETH", 5250)] = none := rfl

/-- Witness for C5: a single BTC buy of cost `1000` valued at `1200` is
reported with `roi_pct = 20`, and ETH (nothing invested) is omitted. -/
theorem c5_witness :
    calculate_roi_by_crypto [⟨"BTC", 1, 1000, 0, 1000, "buy", d0, ""⟩]
      [("BTC", 1200), ("ETH", 5250)]
      = some (roiResult [⟨"BTC", 1, 1000, 0, 1000, "buy", d0, ""⟩] 1200 5250) :=
  c5_roi_by_crypto [⟨"BTC", 1, 1000, 0, 1000, "buy", d0, ""⟩]
    [("BTC", 1200), ("ETH", 5250)] 1200 5250
    (by decide) rfl rfl

/-- **C8.**  The claim says the core computations raise no exception on any
well-typed, validated ledger state with any asset symbols; but
`calculate_roi_by_crypto` crashes (Python `KeyError`, modelled as `none`)
as soon as the ledger holds a `"buy"` of any asset other than the
hard-coded `BTC`/`ETH` — an input the purchase form explicitly permits. -/
theorem c8_roi_raises :
    calculate_roi_by_crypto [⟨"ADA", 2, 5, 0, 10, "buy", d0, ""⟩]
      [("BTC", 97500), ("ETH", 5250)] = none := rfl

/-- The per-member dict built by `calculate_weekly_performance`
(`src/utils.py` lines 48-52). -/
structure MemberPerf where
  contributions_added : ℚ
  ownership_change : ℚ
  current_ownership : ℚ
  deriving Repr, DecidableEq

/-- The body of the member loop of `calculate_weekly_performance`
(`src/utils.py` lines 21-52): `one_week_ago = now - timedelta(days=7)`;
the member's totals are summed over `contributions.get(member, [])`, cut at
`date <= one_week_ago` for last week; the pool totals are summed over all
of `contributions.values()` with the same cut; each ownership percentage
is `total_member / total_pool * 100` guarded by `total_pool > 0`. -/
def weekly_perf_entry (contributions : Contributions) (now : Date) (member : String) :
    MemberPerf :=
  let one_week_ago : ℤ := now.t - 7
  let member_contribs := (dictGet? contributions member).getD []
  let contrib_last_week :=
    ((member_contribs.filter (fun c => c.date.t ≤ one_week_ago)).map (·.amount)).sum
  let contrib_this_week := (member_contribs.map (·.amount)).sum
  let total_contrib_last_week :=
    (contributions.map (fun q =>
      ((q.2.filter (fun c => c.date.t ≤ one_week_ago)).map (·.amount)).sum)).sum
  let total_contrib_this_week :=
    (contributions.map (fun q => (q.2.map (·.amount)).sum)).sum
  let ownership_last_week :=
    if 0 < total_contrib_last_week then contrib_last_week / total_contrib_last_week * 100
    else 0
  let ownership_this_week :=
    if 0 < total_contrib_this_week then contrib_this_week / total_contrib_this_week * 100
    else 0
  ⟨contrib_this_week - contrib_last_week,
   ownership_this_week - ownership_last_week,
   ownership_this_week⟩

/-- `calculate_weekly_performance(contributions, transactions, prices)`
from `src/utils.py` lines 12-54: one `MemberPerf` per key of
`contributions`, in iteration order.  (The `transactions` and `prices`
arguments of the source are never read by its body and are elided.) -/
def calculate_weekly_performance (contributions : Contributions) (now : Date) :
    List (String × MemberPerf) :=
  contributions.map (fun p => (p.1, weekly_perf_entry contributions now p.1))

/-- A member's records summed after the spec's cutoff restriction. -/
def cutTotal (recs : List ContribRecord) (cutoff : ℤ) : ℚ :=
  ((recs.filter (fun c => c.date.t ≤ cutoff)).map (·.amount)).sum

/-- The pool-wide total re-cut at the same boundary, over every member. -/
def poolCutTotal (contributions : Contributions) (cutoff : ℤ) : ℚ :=
  (contributions.map (fun q => cutTotal q.2 cutoff)).sum

/-- The spec's `weekly_delta(member, as_of)` (§4.6 of the spec): split the
member's records at `occurred_at <= as_of - 7 days`, compute both
ownership percentages from the pool-wide totals re-cut at that same
cutoff for every member (0 when the corresponding pool is empty), and
return `{contributions_added, ownership_change, current_ownership}`. -/
def weekly_delta_spec (contributions : Contributions) (member : String) (as_of : Date) :
    MemberPerf :=
  let cutoff : ℤ := as_of.t - 7
  let recs := (dictGet? contributions member).getD []
  let last_total := cutTotal recs cutoff
  let this_total := (recs.map (·.amount)).sum
  let pool_last := poolCutTotal contributions cutoff
  let pool_this := (contributions.map (fun q => (q.2.map (·.amount)).sum)).sum
  let last_pct := if 0 < pool_last then last_total / pool_last * 100 else 0
  let this_pct := if 0 < pool_this then this_total / pool_this * 100 else 0
  ⟨this_total - last_total, this_pct - last_pct, this_pct⟩

/-- Looking up a key of a keyed map rebuild. -/
lemma dictGet?_map_keyed {β γ : Type} (l : List (String × β)) (F : String → γ) {m : String}
    (hm : m ∈ l.map (·.1)) :
    dictGet? (l.map (fun p => (p.1, F p.1))) m = some (F m) := by
  induction l with
  | nil => cases hm
  | cons e rest ih =>
    simp only [List.map_cons, dictGet?_cons] at hm ⊢
    by_cases hme : m = e.1
    · rw [if_pos hme, hme]
    · rw [if_neg hme]
      exact ih ((List.mem_cons.mp hm).resolve_left hme)

/-- **C6.**  For every contribution ledger and every member appearing in
it, the weekly-performance entry reported for that member is exactly the
spec's `weekly_delta`: records split at `occurred_at <= as_of - 7 days`,
both ownership percentages computed from the pool-wide totals re-cut at
the same cutoff for every member, and
`{contributions_added = this_total - last_total,
ownership_change = this_pct - last_pct, current_ownership = this_pct}`. -/
theorem c6_weekly_delta (contributions : Contributions) (now : Date) {member : String}
    (hm : member ∈ contributions.map (·.1)) :
    dictGet? (calculate_weekly_performance contributions now) member
      = some (weekly_delta_spec contributions member now) := by
  unfold calculate_weekly_performance
  rw [dictGet?_map_keyed contributions (weekly_perf_entry contributions now) hm]
  rfl

/-- The spec's weekly-delta scenario ledger: member `A` contributed `100`
before the cutoff and `50` after it, member `B` `300` and `150`. -/
def weeklyScenario : Contributions :=
  [("A", [⟨100, ⟨0, 1, 2026⟩, d0⟩, ⟨50, ⟨9, 2, 2026⟩, d0⟩]),
   ("B", [⟨300, ⟨0, 1, 2026⟩, d0⟩, ⟨150, ⟨9, 2, 2026⟩, d0⟩])]

/-- Witness for C6: in the scenario ledger, `A`'s reported entry is the
spec's weekly delta. -/
theorem c6_witness :
    dictGet? (calculate_weekly_performance weeklyScenario ⟨10, 2, 2026⟩) "A"
      = some (weekly_delta_spec weeklyScenario "A" ⟨10, 2, 2026⟩) :=
  c6_weekly_delta weeklyScenario ⟨10, 2, 2026⟩ (by decide)

example :
    weekly_delta_spec weeklyScenario "A" ⟨10, 2, 2026⟩
      = ⟨50, 0, 25⟩ := by
  norm_num +decide [weekly_delta_spec, weeklyScenario, cutTotal, poolCutTotal, dictGet?]

/-- The loop of `get_contribution_streak` (`src/utils.py` lines 202-217):
walk the records from newest to oldest; `expected_week` is
`current_week - streak`, shifted by `52` (and the year by one) when it
falls to `0` or below; a record matching the expected week and year
extends the streak, anything else stops the walk. -/
def streak_loop (currentWeek : ℕ) (currentYear : ℤ) :
    List ContribRecord → ℕ → ℕ
  | [], streak => streak
  | c :: rest, streak =>
    let ew : ℤ := (currentWeek : ℤ) - streak
    let expected_week : ℤ := if ew ≤ 0 then ew + 52 else ew
    let expected_year : ℤ := if ew ≤ 0 then currentYear - 1 else currentYear
    if (c.date.isoWeek : ℤ) = expected_week ∧ c.date.year = expected_year then
      streak_loop currentWeek currentYear rest (streak + 1)
    else streak

/-- `get_contribution_streak(member, contributions)` from `src/utils.py`
lines 187-219: `0` when the member has no records; otherwise the records
are sorted by date descending (Python's stable `sorted(..., reverse=True)`)
and walked by `streak_loop`.  `currentWeek`/`currentYear` stand for
`datetime.now().isocalendar()[1]` and `datetime.now().year`. -/
def get_contribution_streak (member : String) (contributions : Contributions)
    (currentWeek : ℕ) (currentYear : ℤ) : ℕ :=
  let member_contribs := (dictGet? contributions member).getD []
  if member_contribs.isEmpty then 0
  else
    streak_loop currentWeek currentYear
      (member_contribs.insertionSort (fun a b => b.date.t ≤ a.date.t)) 0

/-- **C7.**  The claim says the streak counts consecutive ISO weeks in
which the member has *at least one* contribution.  But the loop consumes
records one by one: with two contributions inside the current week (40)
and one in week 39, the second week-40 record is compared against the
expected week 39, mismatches, and stops the walk — the function returns
`1` although weeks 40 and 39 both hold contributions (the claim requires
`2`). -/
theorem c7_streak_counter :
    get_contribution_streak "Charles"
      [("Charles",
        [⟨50, ⟨3, 40, 2026⟩, d0⟩, ⟨50, ⟨2, 40, 2026⟩, d0⟩, ⟨50, ⟨1, 39, 2026⟩, d0⟩])]
      40 2026 = 1 := by decide

example :
    get_contribution_streak "Charles"
      [("Charles",
        [⟨50, ⟨3, 40, 2026⟩, d0⟩, ⟨50, ⟨2, 39, 2026⟩, d0⟩, ⟨50, ⟨1, 38, 2026⟩, d0⟩])]
      40 2026 = 3 := by decide

example :
    get_contribution_streak "Charles"
      [("Charles", [⟨50, ⟨3, 1, 2026⟩, d0⟩, ⟨50, ⟨2, 52, 2025⟩, d0⟩])]
      1 2026 = 2 := by decide

example :
    get_contribution_streak "Charles" [("Charles", [⟨50, ⟨3, 39, 2026⟩, d0⟩])]
      40 2026 = 0 := by decide

/-- `add_contribution` never touches another member's entry. -/
lemma add_contribution_dictGet?_ne (c : Contributions) (member : String) (amount : ℚ)
    (date : Option Date) (now : Date) {m : String} (hm : m ≠ member) :
    dictGet? (add_contribution c member amount date now) m = dictGet? c m := by
  unfold add_contribution
  split
  · exact dictGet?_dictUpdate_ne _ member c hm
  · exact dictGet?_append_ne c member _ hm

/-- `add_contribution` appends exactly the one new record to the member's
list (creating the key when absent). -/
lemma add_contribution_memberContribs (c : Contributions) (member : String) (amount : ℚ)
    (date : Option Date) (now : Date) :
    memberContribs (add_contribution c member amount date now) member
      = memberContribs c member ++ [⟨amount, date.getD now, now⟩] := by
  unfold add_contribution memberContribs
  split
  · next h =>
    rw [dictGet?_dictUpdate_self _ member c h]
    obtain ⟨w, hw⟩ := Option.isSome_iff_exists.mp h
    rw [hw]
    rfl
  · next h =>
    rw [dictGet?_append_self c member _ (Option.not_isSome_iff_eq_none.mp h),
      Option.not_isSome_iff_eq_none.mp h]
    rfl

/-- **C9 counterexample.**  The claim says `record_contribution` fails with
`ValidationError` — with no state change — whenever `amount <= 0` or the
member is unknown.  But `add_contribution` performs no validation at all:
called on the empty store with the unregistered member `"Eve"` and amount
`-5`, it does not fail and it mutates the store, creating the key and
appending the record. -/
theorem c9_counterexample :
    add_contribution [] "Eve" (-5) none d0 = [("Eve", [⟨-5, d0, d0⟩])] ∧
    add_contribution [] "Eve" (-5) none d0 ≠ [] := by
  constructor
  · rfl
  · rw [show add_contribution [] "Eve" (-5) none d0 = [("Eve", [⟨-5, d0, d0⟩])] from rfl]
    exact List.cons_ne_nil _ _

/-- **C9 (amended).**  `add_contribution` itself never fails and validates
nothing: on every input — non-positive amounts and unregistered members
included — it appends exactly one `ContributionRecord` to the member's
list (creating the key when absent), with `occurred_at` defaulting to
`now`, and leaves every other member's entry unchanged.  Restriction to
positive amounts and registered members is enforced only by the page's
form widgets (`selectbox` over `MEMBERS`, `number_input` with
`min_value=0.01`), not by any `ValidationError`. -/
theorem c9_add_contribution_appends (c : Contributions) (member : String)
    (amount : ℚ) (date : Option Date) (now : Date) :
    memberContribs (add_contribution c member amount date now) member
      = memberContribs c member ++ [⟨amount, date.getD now, now⟩] ∧
    ∀ m, m ≠ member →
      dictGet? (add_contribution c member amount date now) m = dictGet? c m :=
  ⟨add_contribution_memberContribs c member amount date now,
   fun _ hm => add_contribution_dictGet?_ne c member amount date now hm⟩

/-- Witness for C9: appending `-5` under `"Eve"` on the empty store yields
exactly the one record, and `"Charles"`'s entry is untouched. -/
theorem c9_witness :
    memberContribs (add_contribution [] "Eve" (-5) none d0) "Eve"
      = memberContribs [] "Eve" ++ [⟨-5, d0, d0⟩] ∧
    dictGet? (add_contribution [] "Eve" (-5) none d0) "Charles" = dictGet? [] "Charles" :=
  ⟨(c9_add_contribution_appends [] "Eve" (-5) none d0).1,
   (c9_add_contribution_appends [] "Eve" (-5) none d0).2 "Charles" (by decide)⟩

/-- **C10.**  Appending a contribution under a member id outside the
configured `MEMBERS` list — which `add_contribution` accepts, creating a
new key — leaves `calculate_total_contributions`, the total pool, and
every ownership percentage exactly as before, because those computations
iterate only over the fixed `MEMBERS` list. -/
theorem c10_unregistered_noninterference (c : Contributions) (member : String)
    (amount : ℚ) (date : Option Date) (now : Date) (hm : member ∉ MEMBERS) :
    calculate_total_contributions (add_contribution c member amount date now)
      = calculate_total_contributions c ∧
    total_pool (add_contribution c member amount date now) = total_pool c ∧
    calculate_ownership_percentages (add_contribution c member amount date now)
      = calculate_ownership_percentages c := by
  have htot : calculate_total_contributions (add_contribution c member amount date now)
      = calculate_total_contributions c := by
    unfold calculate_total_contributions
    apply List.map_congr_left
    intro m hmem
    have hne : m ≠ member := fun h => hm (h ▸ hmem)
    unfold memberContribs
    rw [add_contribution_dictGet?_ne c member amount date now hne]
  have hpool : total_pool (add_contribution c member amount date now) = total_pool c := by
    unfold total_pool
    rw [htot]
  refine ⟨htot, hpool, ?_⟩
  unfold calculate_ownership_percentages
  rw [htot]

/-- Witness for C10: `"Eve"` is not a registered member, and her `999`
contribution changes no reported total, pool, or percentage. -/
theorem c10_witness :
    "Eve" ∉ MEMBERS ∧
    (calculate_total_contributions
        (add_contribution [("Charles", [⟨100, d0, d0⟩])] "Eve" 999 none d0)
      = calculate_total_contributions [("Charles", [⟨100, d0, d0⟩])] ∧
     total_pool (add_contribution [("Charles", [⟨100, d0, d0⟩])] "Eve" 999 none d0)
      = total_pool [("Charles", [⟨100, d0, d0⟩])] ∧
     calculate_ownership_percentages
        (add_contribution [("Charles", [⟨100, d0, d0⟩])] "Eve" 999 none d0)
      = calculate_ownership_percentages [("Charles", [⟨100, d0, d0⟩])]) :=
  ⟨by decide,
   c10_unregistered_noninterference [("Charles", [⟨100, d0, d0⟩])] "Eve" 999 none d0
     (by decide)⟩

end Cryptogeezas
